import Mathlib

/-!
Shallow embedding of the ECS core in `include/ecs/world.h`: the `World`
registry (live-entity set plus type-erased per-component-type storages), the
per-type `Storage` (an ordered `Entity -> Component` map, a membership set and
three event dispatchers), the conjunctive `View` query with its `each` loop
and its iterator, and the event-publication behaviour — together with proofs
about the specification claims.

Modelling conventions, all translated from the C++ source:
* An `Entity` is its `unsigned entityId`, modelled as `Nat`; `unsigned`
  arithmetic wraps modulo `2 ^ 32` (`uintMod`), the width of `unsigned` on
  all mainstream platforms.
* The ordered map of a storage is an association list with strictly
  increasing (hence unique) keys, and the entity set a strictly increasing
  list.  Erasing a key is modelled by `List.filter`, which agrees with
  single-key erasure on unique-key lists.
* Component types are indexed by an arbitrary type `ι`; the component value
  type at index `i` is `C i`.  The `typeid`-keyed erased storage map becomes
  the dependent function `(i : ι) → Option (Storage (C i))`, where `none`
  means the storage was never created.
* A call that throws `out_of_range` is modelled by `none`; operations that
  publish lifecycle events additionally return the list of publish
  occurrences (`Event`), each carrying the world state passed to the
  subscribers at publish time.  Callback bodies
  (`function<void(World&, Entity)>`) would need a world-to-world function
  stored inside the world itself, so dispatchers record only subscription
  ids; no theorem below inspects a callback body.
-/

/-- Wrap-around modulus of the C++ `unsigned` type (32 bits). -/
def uintMod : Nat := 4294967296

/-- Lookup in the association list modelling the ordered `Entity -> T` map
(`map::at` and `map::find`). -/
def mapLookup {γ : Type} : List (Nat × γ) → Nat → Option γ
  | [], _ => none
  | p :: l, e => if p.1 = e then some p.2 else mapLookup l e

/-- `map::contains`. -/
def mapContains {γ : Type} (l : List (Nat × γ)) (e : Nat) : Bool :=
  (mapLookup l e).isSome

/-- `map::insert_or_assign`, keeping the keys sorted: overwrite the value at
an existing key, otherwise insert at the ordered position. -/
def mapInsertOrAssign {γ : Type} : List (Nat × γ) → Nat → γ → List (Nat × γ)
  | [], e, v => [(e, v)]
  | p :: l, e, v =>
    if e < p.1 then (e, v) :: p :: l
    else if e = p.1 then (e, v) :: l
    else p :: mapInsertOrAssign l e v

/-- `set::insert`, keeping the elements sorted; no-op on a present element. -/
def setInsert : List Nat → Nat → List Nat
  | [], e => [e]
  | x :: l, e =>
    if e < x then e :: x :: l
    else if e = x then x :: l
    else x :: setInsert l e

/-- `Storage::EventDispatcher`: a subscription-id counter and the registry of
callbacks.  Callback bodies are abstract (see the module comment), so the
registry keeps the subscription ids only. -/
structure Dispatcher where
  nextCallbackId : Nat
  callbacks : List Nat
  deriving DecidableEq

/-- A default-constructed dispatcher. -/
def Dispatcher.empty : Dispatcher := ⟨0, []⟩

/-- `EventDispatcher::connect`: register under the next id, return the id. -/
def Dispatcher.connect (d : Dispatcher) : Dispatcher × Nat :=
  (⟨(d.nextCallbackId + 1) % uintMod, d.callbacks ++ [d.nextCallbackId]⟩, d.nextCallbackId)

/-- `EventDispatcher::disconnect`. -/
def Dispatcher.disconnect (d : Dispatcher) (callbackId : Nat) : Dispatcher :=
  ⟨d.nextCallbackId, d.callbacks.filter (· ≠ callbackId)⟩

/-- `World::Storage<Component>`: the ordered map (inherited from `map`), the
membership set (inherited from `StorageBase`), and the three dispatchers. -/
structure Storage (γ : Type) where
  data : List (Nat × γ)
  entities : List Nat
  createEventDispatcher : Dispatcher
  updateEventDispatcher : Dispatcher
  removeEventDispatcher : Dispatcher
  deriving DecidableEq

/-- A default-constructed (empty) storage. -/
def Storage.empty {γ : Type} : Storage γ :=
  ⟨[], [], Dispatcher.empty, Dispatcher.empty, Dispatcher.empty⟩

/-- `Storage::insert_or_assign`: insert-or-assign on the map, insert into the
membership set. -/
def Storage.insertOrAssign {γ : Type} (s : Storage γ) (e : Nat) (v : γ) : Storage γ :=
  { s with data := mapInsertOrAssign s.data e v, entities := setInsert s.entities e }

/-- The `Storage::erase` override: erase from the map and from the set. -/
def Storage.eraseEntity {γ : Type} (s : Storage γ) (e : Nat) : Storage γ :=
  { s with data := s.data.filter (fun p => p.1 ≠ e),
           entities := s.entities.filter (· ≠ e) }

/-- The `World` registry: the id counter, the live-entity set, and the erased
per-type storages. -/
structure World (ι : Type) (C : ι → Type) where
  nextEntityId : Nat
  entities : List Nat
  storage : (i : ι) → Option (Storage (C i))

/-- A default-constructed `World{}`. -/
def World.init (ι : Type) (C : ι → Type) : World ι C := ⟨0, [], fun _ => none⟩

section WorldOps

variable {ι : Type} [DecidableEq ι] {C : ι → Type}

/-- `World::hasStorage<Component>`. -/
def World.hasStorage (w : World ι C) (i : ι) : Bool := (w.storage i).isSome

/-- Overwrite the storage slot of component index `i`. -/
def World.setStorage (w : World ι C) (i : ι) (s : Storage (C i)) : World ι C :=
  { w with storage := fun j => if h : i = j then some (h ▸ s) else w.storage j }

/-- `World::ensureStorage<Component>`: lazily default-construct the storage. -/
def World.ensureStorage (w : World ι C) (i : ι) : World ι C :=
  if w.hasStorage i then w else w.setStorage i Storage.empty

/-- `World::getStorage<Component>`, defaulted on a missing slot; every use
below is guarded by `ensureStorage`/`hasStorage` exactly as in the source. -/
def World.getStorageD (w : World ι C) (i : ι) : Storage (C i) :=
  (w.storage i).getD Storage.empty

/-- `World::has<Component>`: false without storage, else `map::contains`. -/
def World.has (w : World ι C) (i : ι) (e : Nat) : Bool :=
  if w.hasStorage i then mapContains (w.getStorageD i).data e else false

/-- `World::get<Component>`: `getStorage<Component>().at(entity)`; `none`
models the `out_of_range` thrown when the storage is missing (the erased-map
`at`) or when the entity is not a key (the component-map `at`). -/
def World.get (w : World ι C) (i : ι) (e : Nat) : Option (C i) :=
  (w.storage i).bind fun s => mapLookup s.data e

/-- `World::size`. -/
def World.size (w : World ι C) : Nat := w.entities.length

/-- The lifecycle phases of the three event channels. -/
inductive Phase where
  | create
  | update
  | remove
  deriving DecidableEq

/-- One `EventDispatcher::publish` occurrence: the phase and component index
of the firing dispatcher, the entity argument, and the world state `*this`
passed to the subscribers at publish time. -/
structure Event (ι : Type) (C : ι → Type) where
  phase : Phase
  cidx : ι
  entity : Nat
  world : World ι C

/-- `World::assign<Component>`: ensure the storage, test `has` before the
insert, `insert_or_assign`, then publish create (first time) or update. -/
def World.assign (w : World ι C) (i : ι) (e : Nat) (v : C i) :
    World ι C × List (Event ι C) :=
  let w1 := w.ensureStorage i
  let isCreated := ! w1.has i e
  let w2 := w1.setStorage i ((w1.getStorageD i).insertOrAssign e v)
  if isCreated then (w2, [⟨Phase.create, i, e, w2⟩])
  else (w2, [⟨Phase.update, i, e, w2⟩])

/-- `World::transform<Component>`: `component = f(component)` on the mapped
value, then publish update.  `none` models the `out_of_range` of
`getStorage` (missing storage) or `at` (entity not a key); the exception
propagates before any mutation. -/
def World.transform (w : World ι C) (i : ι) (e : Nat) (f : C i → C i) :
    Option (World ι C × List (Event ι C)) :=
  match w.storage i with
  | none => none
  | some s =>
    match mapLookup s.data e with
    | none => none
    | some _ =>
      let w2 := w.setStorage i
        { s with data := s.data.map fun p => if p.1 = e then (p.1, f p.2) else p }
      some (w2, [⟨Phase.update, i, e, w2⟩])

/-- `World::patch<Component>`: `f(component)` mutates the mapped value in
place, then publish update; the state effect coincides with `transform` with
the callable read as a value transformer. -/
def World.patch (w : World ι C) (i : ι) (e : Nat) (f : C i → C i) :
    Option (World ι C × List (Event ι C)) :=
  match w.storage i with
  | none => none
  | some s =>
    match mapLookup s.data e with
    | none => none
    | some _ =>
      let w2 := w.setStorage i
        { s with data := s.data.map fun p => if p.1 = e then (p.1, f p.2) else p }
      some (w2, [⟨Phase.update, i, e, w2⟩])

/-- `World::remove<Component>`: `onRemove<Component>()` ensures the storage,
`publish` fires before the erase, then `Storage::erase`. -/
def World.remove (w : World ι C) (i : ι) (e : Nat) :
    World ι C × List (Event ι C) :=
  let w1 := w.ensureStorage i
  (w1.setStorage i ((w1.getStorageD i).eraseEntity e), [⟨Phase.remove, i, e, w1⟩])

/-- `World::createEntity`: `Entity{nextEntityId++}` (unsigned, so the counter
wraps modulo `2 ^ 32`), inserted into the live-entity set and returned. -/
def World.createEntity (w : World ι C) : World ι C × Nat :=
  ({ w with nextEntityId := (w.nextEntityId + 1) % uintMod,
            entities := setInsert w.entities w.nextEntityId },
   w.nextEntityId)

/-- `World::destroyEntity`: virtual `erase` on every storage in existence,
then erase from the live-entity set; no event is published (the empty trace
records that). -/
def World.destroyEntity (w : World ι C) (e : Nat) :
    World ι C × List (Event ι C) :=
  ({ w with entities := w.entities.filter (· ≠ e),
            storage := fun i => (w.storage i).map (fun s => s.eraseEntity e) },
   [])

/-- The dispatcher of a storage for a given phase
(`createEventDispatcher` / `updateEventDispatcher` / `removeEventDispatcher`). -/
def Storage.dispatcher {γ : Type} (s : Storage γ) (ph : Phase) : Dispatcher :=
  match ph with
  | Phase.create => s.createEventDispatcher
  | Phase.update => s.updateEventDispatcher
  | Phase.remove => s.removeEventDispatcher

/-- Replace the dispatcher of a storage for a given phase. -/
def Storage.withDispatcher {γ : Type} (s : Storage γ) (ph : Phase) (d : Dispatcher) :
    Storage γ :=
  match ph with
  | Phase.create => { s with createEventDispatcher := d }
  | Phase.update => { s with updateEventDispatcher := d }
  | Phase.remove => { s with removeEventDispatcher := d }

/-- `World::onCreate/onUpdate/onRemove` followed by `connect`: ensure the
storage, register the callback, return the subscription id. -/
def World.onConnect (w : World ι C) (i : ι) (ph : Phase) : World ι C × Nat :=
  let w1 := w.ensureStorage i
  let s := w1.getStorageD i
  let dc := (s.dispatcher ph).connect
  (w1.setStorage i (s.withDispatcher ph dc.1), dc.2)

/-- `World::onCreate/onUpdate/onRemove` followed by `disconnect`. -/
def World.onDisconnect (w : World ι C) (i : ι) (ph : Phase) (callbackId : Nat) :
    World ι C :=
  let w1 := w.ensureStorage i
  let s := w1.getStorageD i
  w1.setStorage i (s.withDispatcher ph ((s.dispatcher ph).disconnect callbackId))

end WorldOps

section ViewDefs

variable {ι : Type} [DecidableEq ι] {C : ι → Type}

/-- `World::View<Components...>`: the request list (the template arguments)
and the View's own storages.  The C++ constructor takes the storages **by
value** and moves the copies into a map owned by the View; the model keeps a
copy at every requested index and the default-constructed empty storage
elsewhere. -/
structure World.View (ι : Type) (C : ι → Type) where
  req : List ι
  stores : (j : ι) → Storage (C j)

/-- `World::view<Components...>`: if some requested storage does not exist,
the View is built from default-constructed storages for *all* requested
types; otherwise from copies of the world's storages. -/
def World.view (w : World ι C) (req : List ι) : World.View ι C :=
  if req.all (fun j => w.hasStorage j) then
    ⟨req, fun j => if j ∈ req then w.getStorageD j else Storage.empty⟩
  else
    ⟨req, fun _ => Storage.empty⟩

/-- The full-membership test `(getStorage<Components>().contains(entity) && ...)`. -/
def World.View.matchesAll (v : World.View ι C) (e : Nat) : Bool :=
  v.req.all fun j => mapContains (v.stores j).data e

/-- The argument tuple `(entity, getStorage<Components>().at(entity)...)`
handed to a callback; the value at index `j` is the View's mapped value. -/
def World.View.args (v : World.View ι C) (e : Nat) :
    Nat × ((j : ι) → Option (C j)) :=
  (e, fun j => mapLookup (v.stores j).data e)

/-- The entity set of the primary storage (`storages.begin()->second`): the
C++ primary is an arbitrary element of an unordered map, modelled by the
choice `k` of a position in the request list. -/
def World.View.baseEntities (v : World.View ι C) (k : Nat) : List Nat :=
  match v.req[k]? with
  | some j => (v.stores j).entities
  | none => []

/-- The invocation sequence of `View::each(f)`: for every entity of the
primary set, test full membership and, on success, call `f` with the entity
and the component values. -/
def World.View.eachCalls (v : World.View ι C) (k : Nat) :
    List (Nat × ((j : ι) → Option (C j))) :=
  (v.baseEntities k).filterMap fun e =>
    if v.matchesAll e then some (v.args e) else none

/-- `View::each(f)` with a world-mutating callback `g` threaded through the
loop (a callback capturing `World&` may mutate it): the loop still reads the
entities, the membership tests and the values from the View's own storages.
Returns the final world and the argument trace of the calls made. -/
def World.View.eachRun (v : World.View ι C) (k : Nat)
    (g : World ι C → Nat × ((j : ι) → Option (C j)) → World ι C) (w : World ι C) :
    World ι C × List (Nat × ((j : ι) → Option (C j))) :=
  (v.baseEntities k).foldl
    (fun acc e =>
      if v.matchesAll e then (g acc.1 (v.args e), acc.2 ++ [v.args e]) else acc)
    (w, [])

/-- `Iterator::operator*` at a set position: dereference the set iterator
and call `at` for every requested component.  `none` models the
`out_of_range` thrown by `at` on an entity lacking some requested component
(the tuple exists exactly when every `at` succeeds, i.e. on full membership),
or the undefined behaviour of dereferencing an invalid position. -/
def World.View.derefAt (v : World.View ι C) (k idx : Nat) :
    Option (Nat × ((j : ι) → Option (C j))) :=
  match (v.baseEntities k)[idx]? with
  | none => none
  | some e => if v.matchesAll e then some (v.args e) else none

/-- `Iterator::operator++`: while not at the end, advance the set iterator,
then dereference it — even when it has just reached the end position — and
stop on a full match (`break`) or when the end is reached.  Returns the new
position and the list of positions the loop dereferenced; a recorded
position equal to `(v.baseEntities k).length` is the end position, whose
dereference is undefined behaviour in the C++ source. -/
def World.View.advance (v : World.View ι C) (k idx : Nat) : Nat × List Nat :=
  if h : idx < (v.baseEntities k).length then
    match (v.baseEntities k)[idx + 1]? with
    | none => (idx + 1, [idx + 1])
    | some e =>
      if v.matchesAll e then (idx + 1, [idx + 1])
      else
        let r := v.advance k (idx + 1)
        (r.1, (idx + 1) :: r.2)
  else (idx, [])
  termination_by (v.baseEntities k).length - idx
  decreasing_by omega

end ViewDefs

section TraceDefs

variable {ι : Type} [DecidableEq ι] {C : ι → Type}

/-- The public mutating/query operations of `World`, for reasoning about
every sequence of calls. -/
inductive Op (ι : Type) (C : ι → Type) where
  | assign (i : ι) (e : Nat) (v : C i)
  | transform (i : ι) (e : Nat) (f : C i → C i)
  | patch (i : ι) (e : Nat) (f : C i → C i)
  | remove (i : ι) (e : Nat)
  | create
  | destroy (e : Nat)
  | view (req : List ι)
  | connect (i : ι) (ph : Phase)
  | disconnect (i : ι) (ph : Phase) (callbackId : Nat)

/-- The state effect of one operation.  A `transform`/`patch` that throws
leaves the world unchanged (the exception propagates before any mutation);
`view` is a `const` member and does not mutate the world. -/
def stepW (w : World ι C) : Op ι C → World ι C
  | Op.assign i e v => (w.assign i e v).1
  | Op.transform i e f => ((w.transform i e f).map Prod.fst).getD w
  | Op.patch i e f => ((w.patch i e f).map Prod.fst).getD w
  | Op.remove i e => (w.remove i e).1
  | Op.create => w.createEntity.1
  | Op.destroy e => (w.destroyEntity e).1
  | Op.view _ => w
  | Op.connect i ph => (w.onConnect i ph).1
  | Op.disconnect i ph cb => w.onDisconnect i ph cb

/-- Run a sequence of operations. -/
def applyTrace (tr : List (Op ι C)) (w : World ι C) : World ι C :=
  tr.foldl stepW w

/-- How many `createEntity` calls a sequence contains. -/
def countCreates : List (Op ι C) → Nat
  | [] => 0
  | op :: tr =>
    (match op with
     | Op.create => 1
     | _ => 0) + countCreates tr

/-- The identifiers returned by the `createEntity` calls of a sequence, in
call order. -/
def createdIds : List (Op ι C) → World ι C → List Nat
  | [], _ => []
  | op :: tr, w =>
    (match op with
     | Op.create => [w.nextEntityId]
     | _ => []) ++ createdIds tr (stepW w op)

end TraceDefs

section WFDefs

variable {ι : Type} [DecidableEq ι] {C : ι → Type}

/-- Well-formedness of one storage: the key list of the map coincides with
the membership set, and the set is strictly increasing (as a `set` is). -/
def StorageWF {γ : Type} (s : Storage γ) : Prop :=
  s.data.map Prod.fst = s.entities ∧ s.entities.Pairwise (· < ·)

instance {γ : Type} (s : Storage γ) : Decidable (StorageWF s) :=
  inferInstanceAs (Decidable (_ ∧ _))

/-- Well-formedness of an optional storage slot. -/
def OptWF {γ : Type} : Option (Storage γ) → Prop
  | none => True
  | some s => StorageWF s

instance {γ : Type} (o : Option (Storage γ)) : Decidable (OptWF o) :=
  match o with
  | none => Decidable.isTrue trivial
  | some s => inferInstanceAs (Decidable (StorageWF s))

/-- Well-formedness of a world: a strictly increasing live-entity set and
well-formed storage slots. -/
def WorldWF (w : World ι C) : Prop :=
  w.entities.Pairwise (· < ·) ∧ ∀ i, OptWF (w.storage i)

/-- The key-set/membership-set agreement alone, for one storage slot. -/
def SyncedOpt {γ : Type} : Option (Storage γ) → Prop
  | none => True
  | some s => s.data.map Prod.fst = s.entities

/-- Absence of an entity from the membership set of a storage slot. -/
def NotMemOpt {γ : Type} (o : Option (Storage γ)) (e : Nat) : Prop :=
  match o with
  | none => True
  | some s => e ∉ s.entities

instance {ι : Type} [DecidableEq ι] [Fintype ι] {C : ι → Type} (w : World ι C) :
    Decidable (WorldWF w) :=
  inferInstanceAs (Decidable (_ ∧ _))

end WFDefs

section ConcreteWorlds

/-- A concrete one-component-type instantiation (component values are `Nat`). -/
abbrev Comp1 : Fin 1 → Type := fun _ => Nat

/-- A concrete two-component-type instantiation (think `int` and `float`). -/
abbrev Comp2 : Fin 2 → Type := fun _ => Nat

/-- Entity 0 holds component 0 only; entity 1 holds components 0 and 1. -/
def exTrace : List (Op (Fin 2) Comp2) :=
  [Op.create, Op.create, Op.assign 0 0 10, Op.assign 0 1 11, Op.assign 1 1 21]

/-- The world reached by `exTrace` from a default-constructed world. -/
def exW : World (Fin 2) Comp2 := applyTrace exTrace (World.init (Fin 2) Comp2)

/-- A world with the single entity 0 holding component 0 with value 0. -/
def exV : World (Fin 1) Comp1 :=
  applyTrace [Op.create, Op.assign 0 0 0] (World.init (Fin 1) Comp1)

/-- `exV` after re-assigning component 0 of entity 0 to 1 on the world. -/
def exV2 : World (Fin 1) Comp1 := (exV.assign 0 0 1).1

end ConcreteWorlds

section MapSetLemmas

variable {γ : Type}

theorem mapLookup_insertOrAssign_self (l : List (Nat × γ)) (e : Nat) (v : γ) :
    mapLookup (mapInsertOrAssign l e v) e = some v := by
  induction l with
  | nil => simp [mapInsertOrAssign, mapLookup]
  | cons p l ih =>
    by_cases h1 : e < p.1
    · simp [mapInsertOrAssign, h1, mapLookup]
    · by_cases h2 : e = p.1
      · simp [mapInsertOrAssign, h1, h2, mapLookup]
      · have hne : ¬ p.1 = e := fun hh => h2 hh.symm
        simp [mapInsertOrAssign, h1, h2, mapLookup, hne, ih]

theorem keys_mapInsertOrAssign (l : List (Nat × γ)) (e : Nat) (v : γ) :
    (mapInsertOrAssign l e v).map Prod.fst = setInsert (l.map Prod.fst) e := by
  induction l with
  | nil => simp [mapInsertOrAssign, setInsert]
  | cons p l ih =>
    by_cases h1 : e < p.1
    · simp [mapInsertOrAssign, setInsert, h1]
    · by_cases h2 : e = p.1
      · simp [mapInsertOrAssign, setInsert, h1, h2]
      · simp [mapInsertOrAssign, setInsert, h1, h2, ih]

theorem mem_setInsert (l : List Nat) (e x : Nat) :
    x ∈ setInsert l e ↔ x = e ∨ x ∈ l := by
  induction l with
  | nil => simp [setInsert]
  | cons y l ih =>
    by_cases h1 : e < y
    · simp [setInsert, h1]
    · by_cases h2 : e = y
      · subst h2; simp [setInsert, h1]
      · simp only [setInsert, if_neg h1, if_neg h2, List.mem_cons, ih]
        tauto

theorem pairwise_setInsert (l : List Nat) (e : Nat)
    (hl : l.Pairwise (· < ·)) : (setInsert l e).Pairwise (· < ·) := by
  induction l with
  | nil => simp [setInsert]
  | cons y l ih =>
    rw [List.pairwise_cons] at hl
    by_cases h1 : e < y
    · rw [setInsert]
      simp only [if_pos h1, List.pairwise_cons]
      refine ⟨?_, hl⟩
      intro z hz
      rcases List.mem_cons.mp hz with hz | hz
      · exact hz ▸ h1
      · exact Nat.lt_trans h1 (hl.1 z hz)
    · by_cases h2 : e = y
      · rw [setInsert]
        simp only [if_neg h1, if_pos h2, List.pairwise_cons]
        exact hl
      · have hy : y < e :=
          Nat.lt_of_le_of_ne (Nat.le_of_not_lt h1) fun hh => h2 hh.symm
        rw [setInsert]
        simp only [if_neg h1, if_neg h2, List.pairwise_cons]
        refine ⟨?_, ih hl.2⟩
        intro z hz
        rcases (mem_setInsert l e z).mp hz with hz | hz
        · exact hz ▸ hy
        · exact hl.1 z hz

theorem length_setInsert_of_not_mem (l : List Nat) (e : Nat) (h : e ∉ l) :
    (setInsert l e).length = l.length + 1 := by
  induction l with
  | nil => simp [setInsert]
  | cons y l ih =>
    have h1 : e ≠ y := fun hh => h (hh ▸ List.mem_cons_self y l)
    have h2 : e ∉ l := fun hh => h (List.mem_cons_of_mem y hh)
    by_cases hlt : e < y
    · simp [setInsert, hlt]
    · simp [setInsert, hlt, h1, ih h2]

theorem keys_filter_ne (l : List (Nat × γ)) (e : Nat) :
    ((l.filter fun p => p.1 ≠ e).map Prod.fst) = (l.map Prod.fst).filter (· ≠ e) := by
  induction l with
  | nil => simp
  | cons p l ih =>
    simp only [ne_eq, decide_not] at ih
    by_cases h : p.1 = e
    · simp [List.filter_cons, h, ih]
    · simp [List.filter_cons, h, ih]

theorem mapLookup_filter_ne_self (l : List (Nat × γ)) (e : Nat) :
    mapLookup (l.filter fun p => p.1 ≠ e) e = none := by
  induction l with
  | nil => simp [mapLookup]
  | cons p l ih =>
    simp only [ne_eq, decide_not] at ih
    by_cases h : p.1 = e
    · simp [List.filter_cons, h, ih]
    · simp [List.filter_cons, h, mapLookup, ih]

theorem keys_map_valueUpdate (l : List (Nat × γ)) (e : Nat) (f : γ → γ) :
    ((l.map fun p => if p.1 = e then (p.1, f p.2) else p).map Prod.fst) = l.map Prod.fst := by
  rw [List.map_map]
  apply List.map_congr_left
  intro p _
  by_cases h : p.1 = e <;> simp [h]

theorem pairwise_lt_nodup (l : List Nat) (h : l.Pairwise (· < ·)) : l.Nodup :=
  h.imp Nat.ne_of_lt

theorem filter_ne_of_not_mem (l : List Nat) (e : Nat) (h : e ∉ l) :
    l.filter (· ≠ e) = l :=
  List.filter_eq_self.mpr fun a ha => by
    simp only [ne_eq, decide_not, Bool.not_eq_eq_eq_not, Bool.not_true, decide_eq_false_iff_not]
    exact fun hh => h (hh ▸ ha)

theorem length_filter_ne_of_nodup_mem (l : List Nat) (e : Nat)
    (hnd : l.Nodup) (hm : e ∈ l) : (l.filter (· ≠ e)).length = l.length - 1 := by
  induction l with
  | nil => cases hm
  | cons y l ih =>
    rw [List.nodup_cons] at hnd
    by_cases hy : y = e
    · subst hy
      have hfil : l.filter (· ≠ y) = l := filter_ne_of_not_mem l y hnd.1
      have hstep : (y :: l).filter (· ≠ y) = l.filter (· ≠ y) := by
        simp [List.filter_cons]
      rw [hstep, hfil, List.length_cons]
      omega
    · have hm2 : e ∈ l := by
        rcases List.mem_cons.mp hm with h | h
        · exact absurd h.symm hy
        · exact h
      have hstep : (y :: l).filter (· ≠ e) = y :: l.filter (· ≠ e) := by
        simp [List.filter_cons, hy]
      have hlen : 1 ≤ l.length := List.length_pos.mpr (List.ne_nil_of_mem hm2)
      rw [hstep, List.length_cons, ih hnd.2 hm2, List.length_cons]
      omega

theorem not_mem_filter_ne_self (l : List Nat) (e : Nat) :
    e ∉ l.filter (· ≠ e) := by
  intro hmem
  have := List.of_mem_filter hmem
  simp at this

theorem map_fst_filterMap_ite {β : Type} (l : List Nat) (p : Nat → Bool)
    (g : Nat → β) :
    ((l.filterMap fun e => if p e then some (e, g e) else none).map Prod.fst)
      = l.filter p := by
  induction l with
  | nil => simp
  | cons y l ih =>
    by_cases h : p y
    · simp [List.filterMap_cons, h, List.filter_cons, ih]
    · simp [List.filterMap_cons, h, List.filter_cons, ih]

end MapSetLemmas

section WorldLemmas

variable {ι : Type} [DecidableEq ι] {C : ι → Type}

theorem storage_setStorage_self (w : World ι C) (i : ι) (s : Storage (C i)) :
    (w.setStorage i s).storage i = some s := by
  show (if h : i = i then some (h ▸ s) else w.storage i) = some s
  rw [dif_pos rfl]

theorem storage_setStorage_ne (w : World ι C) (i j : ι) (s : Storage (C i))
    (h : ¬ i = j) : (w.setStorage i s).storage j = w.storage j := by
  show (if hh : i = j then some (hh ▸ s) else w.storage j) = w.storage j
  rw [dif_neg h]

theorem entities_setStorage (w : World ι C) (i : ι) (s : Storage (C i)) :
    (w.setStorage i s).entities = w.entities := rfl

theorem nextEntityId_setStorage (w : World ι C) (i : ι) (s : Storage (C i)) :
    (w.setStorage i s).nextEntityId = w.nextEntityId := rfl

theorem ensure_of_hasStorage (w : World ι C) (i : ι) (h : w.hasStorage i = true) :
    w.ensureStorage i = w := by
  simp [World.ensureStorage, h]

theorem storage_none_of_not_hasStorage (w : World ι C) (i : ι)
    (h : ¬ w.hasStorage i = true) : w.storage i = none := by
  unfold World.hasStorage at h
  exact Option.not_isSome_iff_eq_none.mp (by simpa using h)

theorem storage_ensure_self (w : World ι C) (i : ι) :
    (w.ensureStorage i).storage i = some (w.getStorageD i) := by
  unfold World.ensureStorage
  by_cases h : w.hasStorage i
  · rw [if_pos h]
    unfold World.getStorageD
    obtain ⟨s, hs⟩ := Option.isSome_iff_exists.mp (by simpa [World.hasStorage] using h)
    rw [hs]
    rfl
  · rw [if_neg h, storage_setStorage_self]
    unfold World.getStorageD
    rw [storage_none_of_not_hasStorage w i h]
    rfl

theorem storage_ensure_ne (w : World ι C) (i j : ι) (h : ¬ i = j) :
    (w.ensureStorage i).storage j = w.storage j := by
  unfold World.ensureStorage
  split
  · rfl
  · exact storage_setStorage_ne w i j _ h

theorem entities_ensure (w : World ι C) (i : ι) :
    (w.ensureStorage i).entities = w.entities := by
  unfold World.ensureStorage
  split <;> rfl

theorem nextEntityId_ensure (w : World ι C) (i : ι) :
    (w.ensureStorage i).nextEntityId = w.nextEntityId := by
  unfold World.ensureStorage
  split <;> rfl

theorem has_eq_get_isSome (w : World ι C) (i : ι) (e : Nat) :
    w.has i e = (w.get i e).isSome := by
  unfold World.has World.get World.hasStorage World.getStorageD mapContains
  cases hs : w.storage i <;> simp [hs]

theorem get_setStorage_self (w : World ι C) (i : ι) (s : Storage (C i)) (e : Nat) :
    (w.setStorage i s).get i e = mapLookup s.data e := by
  unfold World.get
  rw [storage_setStorage_self]
  rfl

theorem get_ensure_self (w : World ι C) (i : ι) (e : Nat) :
    (w.ensureStorage i).get i e = w.get i e := by
  unfold World.get
  rw [storage_ensure_self]
  unfold World.getStorageD
  cases hs : w.storage i <;> simp [hs, Storage.empty, mapLookup]

theorem has_ensure_self (w : World ι C) (i : ι) (e : Nat) :
    (w.ensureStorage i).has i e = w.has i e := by
  rw [has_eq_get_isSome, has_eq_get_isSome, get_ensure_self]

theorem has_false_of_no_storage (w : World ι C) (i : ι) (e : Nat)
    (h : w.hasStorage i = false) : w.has i e = false := by
  unfold World.has
  rw [h]
  rfl

theorem setStorage_of_eq (w : World ι C) (i : ι) (s : Storage (C i))
    (h : w.storage i = some s) : w.setStorage i s = w := by
  cases w with
  | mk nid ents st =>
    unfold World.setStorage
    simp only [World.mk.injEq, true_and]
    funext j
    by_cases hj : i = j
    · subst hj
      rw [dif_pos rfl]
      exact h.symm
    · rw [dif_neg hj]

theorem assign_fst (w : World ι C) (i : ι) (e : Nat) (v : C i) :
    (w.assign i e v).1
      = (w.ensureStorage i).setStorage i
          (((w.ensureStorage i).getStorageD i).insertOrAssign e v) := by
  unfold World.assign
  dsimp only
  split <;> rfl

theorem assign_get_self (w : World ι C) (i : ι) (e : Nat) (v : C i) :
    (w.assign i e v).1.get i e = some v := by
  rw [assign_fst, get_setStorage_self]
  unfold Storage.insertOrAssign
  exact mapLookup_insertOrAssign_self _ e v

theorem assign_has_self (w : World ι C) (i : ι) (e : Nat) (v : C i) :
    (w.assign i e v).1.has i e = true := by
  rw [has_eq_get_isSome, assign_get_self]
  rfl

theorem assign_events_phase (w : World ι C) (i : ι) (e : Nat) (v : C i) :
    ((w.assign i e v).2.map Event.phase)
      = if w.has i e = true then [Phase.update] else [Phase.create] := by
  by_cases h : w.has i e = true
  · have h1 : (w.ensureStorage i).has i e = true := by rw [has_ensure_self]; exact h
    simp [World.assign, h1, h]
  · have h1 : (w.ensureStorage i).has i e = false := by
      rw [has_ensure_self]
      simpa using h
    simp [World.assign, h1, h]

theorem assign_events_target (w : World ι C) (i : ι) (e : Nat) (v : C i) :
    ((w.assign i e v).2.map fun ev => (ev.cidx, ev.entity)) = [(i, e)] := by
  unfold World.assign
  dsimp only
  split <;> rfl

end WorldLemmas

section ClaimC1

variable {ι : Type} [DecidableEq ι] {C : ι → Type}

/-- Claim C1: for every World, entity `e` and component index `i`,
`assign i e v` stores `v` so that an immediately following `get i e` returns
`v`; a second `assign i e v2` makes `get i e` return `v2` (last-write-wins);
and each assign publishes exactly one event — the create event of `i` when
`e` did not hold the component immediately before the call, otherwise the
update event — never both and never zero, always with target `(i, e)`. -/
theorem assign_get_and_events (w : World ι C) (i : ι) (e : Nat) (v v2 : C i) :
    ((w.assign i e v).1.get i e = some v)
    ∧ ((w.assign i e v).2.map Event.phase
        = if w.has i e = true then [Phase.update] else [Phase.create])
    ∧ (((w.assign i e v).2.map fun ev => (ev.cidx, ev.entity)) = [(i, e)])
    ∧ (((w.assign i e v).1.assign i e v2).1.get i e = some v2)
    ∧ (((w.assign i e v).1.assign i e v2).2.map Event.phase = [Phase.update]) := by
  refine ⟨assign_get_self w i e v, assign_events_phase w i e v,
          assign_events_target w i e v, assign_get_self _ i e v2, ?_⟩
  rw [assign_events_phase, if_pos (assign_has_self w i e v)]

end ClaimC1

section ClaimC9

variable {ι : Type} [DecidableEq ι] {C : ι → Type}

/-- Claim C9: `get`, `transform` and `patch` fail with the out-of-range
error (modelled by `none`) if and only if the entity does not currently hold
the component — including when the storage was never created — and succeed
otherwise; `has` never fails, is false whenever the storage was never
created, and is true exactly when `get` succeeds. -/
theorem get_transform_patch_fail_iff (w : World ι C) (i : ι) (e : Nat)
    (f g : C i → C i) :
    (w.get i e = none ↔ w.has i e = false)
    ∧ (w.transform i e f = none ↔ w.has i e = false)
    ∧ (w.patch i e g = none ↔ w.has i e = false)
    ∧ ((w.transform i e f).isSome ↔ w.has i e = true)
    ∧ ((w.patch i e g).isSome ↔ w.has i e = true)
    ∧ (w.storage i = none → w.has i e = false)
    ∧ (w.has i e = true ↔ (w.get i e).isSome = true) := by
  have hhg : w.has i e = (w.get i e).isSome := has_eq_get_isSome w i e
  cases hs : w.storage i with
  | none =>
    refine ⟨?_, ?_, ?_, ?_, ?_, ?_, ?_⟩ <;>
      simp [World.get, World.transform, World.patch, hhg, hs]
  | some s =>
    cases hl : mapLookup s.data e with
    | none =>
      refine ⟨?_, ?_, ?_, ?_, ?_, ?_, ?_⟩ <;>
        simp [World.get, World.transform, World.patch, hhg, hs, hl]
    | some c =>
      refine ⟨?_, ?_, ?_, ?_, ?_, ?_, ?_⟩ <;>
        simp [World.get, World.transform, World.patch, hhg, hs, hl]

/-- Witness for C9 on a default-constructed world, where component 0's
storage was never created: `has` is false and `get` fails. -/
theorem get_fail_witness :
    ((World.init (Fin 1) Comp1).has 0 3 = false)
    ∧ ((World.init (Fin 1) Comp1).get 0 3 = none) := by
  have h := get_transform_patch_fail_iff (World.init (Fin 1) Comp1) 0 3 id id
  have hf := h.2.2.2.2.2.1 rfl
  exact ⟨hf, h.1.mpr hf⟩

end ClaimC9

section ClaimC4

variable {ι : Type} [DecidableEq ι] {C : ι → Type}

theorem eraseEntity_empty (e : Nat) {γ : Type} :
    (Storage.empty : Storage γ).eraseEntity e = Storage.empty := rfl

theorem remove_fst (w : World ι C) (i : ι) (e : Nat) :
    (w.remove i e).1
      = (w.ensureStorage i).setStorage i
          (((w.ensureStorage i).getStorageD i).eraseEntity e) := rfl

/-- Claim C4: `remove i e` publishes exactly one remove event for `i` with
`(World, e)` strictly before erasing `e` from the storage — the world passed
to the subscribers still holds the component exactly as before the call —
and `has i e` is false immediately afterwards.  Calling `remove` on a
component index with no storage yet is legal: it lazily creates the storage,
publishes to a dispatcher with zero subscribers, and erases nothing (the
resulting world is exactly the one with the fresh empty storage). -/
theorem remove_fires_before_erase (w : World ι C) (i : ι) (e : Nat) :
    ((w.remove i e).2 = [⟨Phase.remove, i, e, w.ensureStorage i⟩])
    ∧ ((w.ensureStorage i).has i e = w.has i e)
    ∧ ((w.remove i e).1.has i e = false)
    ∧ (w.hasStorage i = false →
        ((w.remove i e).1 = w.ensureStorage i
         ∧ (w.remove i e).1.storage i = some Storage.empty
         ∧ ((w.ensureStorage i).getStorageD i).removeEventDispatcher.callbacks = [])) := by
  refine ⟨rfl, has_ensure_self w i e, ?_, ?_⟩
  · rw [has_eq_get_isSome, remove_fst, get_setStorage_self]
    unfold Storage.eraseEntity
    dsimp only
    rw [mapLookup_filter_ne_self]
    rfl
  · intro h
    have hnone : w.storage i = none :=
      storage_none_of_not_hasStorage w i (by simp [h])
    have hD : w.getStorageD i = Storage.empty := by
      unfold World.getStorageD
      rw [hnone]
      rfl
    have hD2 : (w.ensureStorage i).getStorageD i = Storage.empty := by
      unfold World.getStorageD
      rw [storage_ensure_self]
      simpa using hD
    have hfst : (w.remove i e).1 = w.ensureStorage i := by
      rw [remove_fst, hD2, eraseEntity_empty]
      exact setStorage_of_eq _ i _ (by rw [storage_ensure_self, hD])
    refine ⟨hfst, ?_, by rw [hD2]; rfl⟩
    rw [hfst, storage_ensure_self, hD]

/-- Witness for C4 on a default-constructed world with no storage: removing
component 0 of entity 5 publishes one remove event, leaves `has` false, and
only lazily creates the (empty) storage. -/
theorem remove_witness :
    (((World.init (Fin 1) Comp1).remove 0 5).1
        = (World.init (Fin 1) Comp1).ensureStorage 0)
    ∧ (((World.init (Fin 1) Comp1).remove 0 5).1.has 0 5 = false)
    ∧ (((World.init (Fin 1) Comp1).remove 0 5).2
        = [⟨Phase.remove, 0, 5, (World.init (Fin 1) Comp1).ensureStorage 0⟩]) := by
  have h := remove_fires_before_erase (World.init (Fin 1) Comp1) 0 5
  exact ⟨(h.2.2.2 (by decide)).1, h.2.2.1, h.1⟩

end ClaimC4

section ClaimC3

variable {ι : Type} [DecidableEq ι] {C : ι → Type}

theorem filter_idem {α : Type} (l : List α) (p : α → Bool) :
    (l.filter p).filter p = l.filter p :=
  List.filter_eq_self.mpr fun _ ha => List.of_mem_filter ha

theorem eraseEntity_idem {γ : Type} (s : Storage γ) (e : Nat) :
    (s.eraseEntity e).eraseEntity e = s.eraseEntity e := by
  unfold Storage.eraseEntity
  simp only [filter_idem]

/-- Claim C3: `destroyEntity e` erases `e` from every storage in existence
(both from the mapping — so `has` is false for every component index — and
from the membership set), erases it from the live-entity set, fires no
events, and is idempotent; when `e` was live, `size` decreases by exactly 1,
and destroying an absent (or never-created) entity is a silent no-op leaving
`size` unchanged. -/
theorem destroyEntity_erases_everywhere (w : World ι C) (e : Nat)
    (hwf : WorldWF w) :
    (∀ i, (w.destroyEntity e).1.has i e = false)
    ∧ (∀ i, NotMemOpt ((w.destroyEntity e).1.storage i) e)
    ∧ (e ∉ (w.destroyEntity e).1.entities)
    ∧ ((w.destroyEntity e).2 = [])
    ∧ ((w.destroyEntity e).1.destroyEntity e = w.destroyEntity e)
    ∧ (e ∈ w.entities → (w.destroyEntity e).1.size = w.size - 1)
    ∧ (e ∉ w.entities → (w.destroyEntity e).1.size = w.size) := by
  refine ⟨?_, ?_, ?_, rfl, ?_, ?_, ?_⟩
  · intro i
    rw [has_eq_get_isSome]
    show ((((w.storage i).map fun s => s.eraseEntity e).bind
      fun s => mapLookup s.data e)).isSome = false
    cases hs : w.storage i with
    | none => rfl
    | some s =>
      show (mapLookup (s.eraseEntity e).data e).isSome = false
      unfold Storage.eraseEntity
      dsimp only
      rw [mapLookup_filter_ne_self]
      rfl
  · intro i
    show NotMemOpt ((w.storage i).map fun s => s.eraseEntity e) e
    cases hs : w.storage i with
    | none => exact trivial
    | some s =>
      show e ∉ (s.eraseEntity e).entities
      exact not_mem_filter_ne_self s.entities e
  · exact not_mem_filter_ne_self w.entities e
  · cases w with
    | mk nid ents st =>
      unfold World.destroyEntity
      dsimp only
      rw [Prod.mk.injEq, World.mk.injEq]
      refine ⟨⟨rfl, ?_, ?_⟩, rfl⟩
      · exact filter_idem ents _
      · funext i
        cases hs : st i with
        | none => rfl
        | some s =>
          show some ((s.eraseEntity e).eraseEntity e) = some (s.eraseEntity e)
          rw [eraseEntity_idem]
  · intro hmem
    exact length_filter_ne_of_nodup_mem w.entities e
      (pairwise_lt_nodup w.entities hwf.1) hmem
  · intro hmem
    show (w.entities.filter (· ≠ e)).length = w.entities.length
    rw [filter_ne_of_not_mem w.entities e hmem]

/-- Witness for C3 at a concrete world: destroying live entity 1 of `exW`
(which holds both components) clears `has` and shrinks `size` from 2 to 1. -/
theorem destroy_witness :
    ((exW.destroyEntity 1).1.has 0 1 = false)
    ∧ ((exW.destroyEntity 1).1.size = exW.size - 1)
    ∧ (exW.size = 2) := by
  have h := destroyEntity_erases_everywhere exW 1 (by decide)
  exact ⟨h.1 0, h.2.2.2.2.2.1 (by decide), by decide⟩

end ClaimC3

section ViewLemmas

variable {ι : Type} [DecidableEq ι] {C : ι → Type}

theorem mem_keys_of_mapContains {γ : Type} (l : List (Nat × γ)) (e : Nat)
    (h : mapContains l e = true) : e ∈ l.map Prod.fst := by
  induction l with
  | nil => simp [mapContains, mapLookup] at h
  | cons p l ih =>
    unfold mapContains mapLookup at h
    by_cases hp : p.1 = e
    · exact hp ▸ List.mem_map_of_mem Prod.fst (List.mem_cons_self p l)
    · rw [if_neg hp] at h
      exact List.mem_cons_of_mem _ (ih h)

theorem hasStorage_true_of_has (w : World ι C) (i : ι) (e : Nat)
    (h : w.has i e = true) : w.hasStorage i = true := by
  by_contra hns
  rw [has_false_of_no_storage w i e (by simpa using hns)] at h
  simp at h

theorem storage_eq_some_getD (w : World ι C) (j : ι) (h : w.hasStorage j = true) :
    w.storage j = some (w.getStorageD j) := by
  unfold World.getStorageD
  obtain ⟨s, hs⟩ := Option.isSome_iff_exists.mp (by simpa [World.hasStorage] using h)
  rw [hs]
  rfl

theorem has_eq_contains_getD (w : World ι C) (j : ι) (e : Nat)
    (h : w.hasStorage j = true) :
    w.has j e = mapContains (w.getStorageD j).data e := by
  unfold World.has
  rw [if_pos h]

theorem view_req (w : World ι C) (req : List ι) : (w.view req).req = req := by
  unfold World.view
  split <;> rfl

theorem view_stores_of_all (w : World ι C) (req : List ι)
    (hex : req.all (fun j => w.hasStorage j) = true) (j : ι) (hj : j ∈ req) :
    (w.view req).stores j = w.getStorageD j := by
  unfold World.view
  rw [if_pos hex]
  dsimp only
  rw [if_pos hj]

theorem view_of_not_all (w : World ι C) (req : List ι)
    (hex : ¬ req.all (fun j => w.hasStorage j) = true) :
    w.view req = ⟨req, fun _ => Storage.empty⟩ := by
  unfold World.view
  rw [if_neg hex]

theorem baseEntities_of_get (v : World.View ι C) (k : Nat) (j : ι)
    (h : v.req[k]? = some j) :
    v.baseEntities k = (v.stores j).entities := by
  unfold World.View.baseEntities
  rw [h]

theorem map_fst_eachCalls (v : World.View ι C) (k : Nat) :
    ((v.eachCalls k).map Prod.fst)
      = (v.baseEntities k).filter (fun e => v.matchesAll e) := by
  unfold World.View.eachCalls World.View.args
  exact map_fst_filterMap_ite _ _ _

theorem eachCalls_elim (v : World.View ι C) (k : Nat)
    (pr : Nat × ((j : ι) → Option (C j))) (hpr : pr ∈ v.eachCalls k) :
    v.matchesAll pr.1 = true
    ∧ pr.2 = (fun j => mapLookup (v.stores j).data pr.1)
    ∧ pr.1 ∈ v.baseEntities k := by
  unfold World.View.eachCalls at hpr
  obtain ⟨a, ha, hif⟩ := List.mem_filterMap.mp hpr
  by_cases hm : v.matchesAll a = true
  · rw [if_pos hm] at hif
    have hpr2 := Option.some.inj hif
    subst hpr2
    exact ⟨hm, rfl, ha⟩
  · rw [if_neg hm] at hif
    cases hif

theorem view_matchesAll_iff (w : World ι C) (req : List ι)
    (hex : req.all (fun j => w.hasStorage j) = true) (e : Nat) :
    (w.view req).matchesAll e = true ↔ ∀ j ∈ req, w.has j e = true := by
  unfold World.View.matchesAll
  rw [view_req, List.all_eq_true]
  constructor
  · intro H j hj
    rw [has_eq_contains_getD w j e (List.all_eq_true.mp hex j hj),
        ← view_stores_of_all w req hex j hj]
    exact H j hj
  · intro H j hj
    rw [view_stores_of_all w req hex j hj,
        ← has_eq_contains_getD w j e (List.all_eq_true.mp hex j hj)]
    exact H j hj

end ViewLemmas

section ClaimC2

variable {ι : Type} [DecidableEq ι] {C : ι → Type}

/-- Claim C2: `view req |>.each f` invokes `f` exactly once for each entity
currently holding every requested component — whatever element of the
request the primary storage is — with that entity's respective component
values, and invokes `f` for no other entity; in particular it makes zero
calls (and does not fail) when no entity holds some requested component,
including when that component's storage was never created. -/
theorem view_each_visits_exactly_holders (w : World ι C) (req : List ι)
    (k e : Nat) (hwf : WorldWF w) (hk : k < req.length) :
    ((((w.view req).eachCalls k).map Prod.fst).count e
        = if ∀ j ∈ req, w.has j e = true then 1 else 0)
    ∧ (∀ pr ∈ (w.view req).eachCalls k, ∀ j ∈ req, pr.2 j = w.get j pr.1) := by
  by_cases hex : req.all (fun j => w.hasStorage j) = true
  · have hsome : (w.view req).req[k]? = some req[k] := by
      rw [view_req]
      exact List.getElem?_eq_getElem hk
    have hj0mem : req[k] ∈ req := List.getElem_mem hk
    have hbase : (w.view req).baseEntities k = (w.getStorageD req[k]).entities := by
      rw [baseEntities_of_get _ k req[k] hsome,
          view_stores_of_all w req hex req[k] hj0mem]
    have hwfs : StorageWF (w.getStorageD req[k]) := by
      have := hwf.2 req[k]
      rw [storage_eq_some_getD w req[k] (List.all_eq_true.mp hex req[k] hj0mem)] at this
      exact this
    constructor
    · rw [map_fst_eachCalls]
      by_cases hall : ∀ j ∈ req, w.has j e = true
      · rw [if_pos hall]
        have hm : (w.view req).matchesAll e = true :=
          (view_matchesAll_iff w req hex e).mpr hall
        rw [List.count_filter hm, hbase]
        have hmeme : e ∈ (w.getStorageD req[k]).entities := by
          rw [← hwfs.1]
          apply mem_keys_of_mapContains
          rw [← has_eq_contains_getD w req[k] e (List.all_eq_true.mp hex req[k] hj0mem)]
          exact hall req[k] hj0mem
        exact List.nodup_iff_count_eq_one.mp
          (pairwise_lt_nodup _ hwfs.2) e hmeme
      · rw [if_neg hall, List.count_eq_zero]
        intro hmemf
        have hfil := List.of_mem_filter hmemf
        exact hall ((view_matchesAll_iff w req hex e).mp hfil)
    · intro pr hpr j hj
      obtain ⟨hm, hval, hmem⟩ := eachCalls_elim _ k pr hpr
      rw [hval]
      dsimp only
      rw [view_stores_of_all w req hex j hj]
      unfold World.get
      rw [storage_eq_some_getD w j (List.all_eq_true.mp hex j hj)]
      rfl
  · have hview := view_of_not_all w req hex
    have hbase : (w.view req).baseEntities k = [] := by
      rw [hview]
      unfold World.View.baseEntities
      cases hq : req[k]? <;> rfl
    have hcalls : (w.view req).eachCalls k = [] := by
      unfold World.View.eachCalls
      rw [hbase]
      rfl
    constructor
    · rw [hcalls]
      have hnall : ¬ ∀ j ∈ req, w.has j e = true := by
        intro hall
        apply hex
        rw [List.all_eq_true]
        intro j hj
        exact hasStorage_true_of_has w j e (hall j hj)
      rw [if_neg hnall]
      rfl
    · rw [hcalls]
      intro pr hpr
      cases hpr

/-- Witness for C2 at a concrete world: in `exW` only entity 1 holds both
components, so the joint view's `each` calls `f` once for entity 1 and never
for entity 0. -/
theorem view_each_visits_witness :
    ((((exW.view [0, 1]).eachCalls 0).map Prod.fst).count 1 = 1)
    ∧ ((((exW.view [0, 1]).eachCalls 0).map Prod.fst).count 0 = 0) := by
  have h1 := (view_each_visits_exactly_holders exW [0, 1] 0 1 (by decide) (by decide)).1
  have h2 := (view_each_visits_exactly_holders exW [0, 1] 0 0 (by decide) (by decide)).1
  constructor
  · rw [h1, if_pos (by decide)]
  · rw [h2, if_neg (by decide)]

end ClaimC2

section ClaimC5

variable {ι : Type} [DecidableEq ι] {C : ι → Type}

theorem eachRun_foldl_trace (v : World.View ι C)
    (g : World ι C → Nat × ((j : ι) → Option (C j)) → World ι C)
    (l : List Nat) (w : World ι C) (acc : List (Nat × ((j : ι) → Option (C j)))) :
    (l.foldl
        (fun acc e =>
          if v.matchesAll e then (g acc.1 (v.args e), acc.2 ++ [v.args e]) else acc)
        (w, acc)).2
      = acc ++ l.filterMap fun e => if v.matchesAll e then some (v.args e) else none := by
  induction l generalizing w acc with
  | nil => simp
  | cons e l ih =>
    by_cases hm : v.matchesAll e = true
    · simp only [List.foldl_cons, List.filterMap_cons, hm, if_pos, ih]
      simp
    · simp only [List.foldl_cons, List.filterMap_cons, hm, if_neg, ih]
      simp [hm]

/-- Claim C5 (amended): a View takes value copies of the requested storages
at construction, so the invocation sequence of `each` — which entities are
visited and which component values are passed — is fully determined by that
snapshot: it is the same for every world-mutating callback `g` and every
world `w0` threaded through the loop, rather than reflecting mutations made
on the World after construction. -/
theorem view_each_snapshot_semantics (w : World ι C) (req : List ι) (k : Nat)
    (g : World ι C → Nat × ((j : ι) → Option (C j)) → World ι C)
    (w0 : World ι C) :
    ((w.view req).eachRun k g w0).2 = (w.view req).eachCalls k := by
  unfold World.View.eachRun World.View.eachCalls
  rw [eachRun_foldl_trace]
  rfl

/-- Claim C5 counterexample: the claim, as stated, is false at this input.
In `exV` entity 0 holds component 0 with value 0; a View is constructed,
then the World is mutated (`exV2` re-assigns the value to 1), yet the View's
`each` still passes the value 0, not the World's current value 1.
Similarly, a callback that removes component 0 of entity 1 on the World from
inside `each` over `exW` does not change which entities `each` visits: both
entities are still visited, although the resulting World no longer holds the
removed component. -/
theorem view_not_borrowed_counterexample :
    (((exV.view [0]).eachCalls 0).map (fun pr => pr.2 0) = [some 0])
    ∧ (exV2.get 0 0 = some 1)
    ∧ (((exV.view [0]).eachCalls 0).map (fun pr => pr.2 0) ≠ [some 1])
    ∧ (((exW.view [0]).eachRun 0 (fun wa _ => (wa.remove 0 1).1) exW).2.map Prod.fst
        = [0, 1])
    ∧ (((exW.view [0]).eachRun 0 (fun wa _ => (wa.remove 0 1).1) exW).1.has 0 1
        = false) := by
  refine ⟨by decide, by decide, by decide, by decide, by decide⟩

end ClaimC5

section ClaimC6

/-- Claim C6 (code bug): iterating a View in iterator form does *not* skip a
first entity that fails the full-membership test.  In `exW`, the primary
entity set of `view [0, 1]` (primary = component 0) is `[0, 1]`; entity 0
holds component 0 but not component 1, so it fails the membership test, yet
`begin()` points at it and `operator*` dereferences it: the `at` call throws
out-of-range (`derefAt = none`) instead of skipping to entity 1, which is a
full member whose tuple a filtering iterator would yield. -/
theorem iterator_begin_not_filtered :
    ((exW.view [0, 1]).baseEntities 0 = [0, 1])
    ∧ (exW.has 0 0 = true)
    ∧ (exW.has 1 0 = false)
    ∧ ((exW.view [0, 1]).matchesAll 0 = false)
    ∧ ((exW.view [0, 1]).derefAt 0 0 = none)
    ∧ ((exW.view [0, 1]).matchesAll 1 = true)
    ∧ (((exW.view [0, 1]).derefAt 0 1).map Prod.fst = some 1) := by
  refine ⟨by decide, by decide, by decide, by decide, by decide, by decide, by decide⟩

end ClaimC6

section ClaimC10

/-- Claim C10 (code bug): advancing a View iterator *does* read an invalid
position.  In `exV` the primary entity set of `view [0]` is `[0]` (length
1); applying `operator++` at the last valid position 0 increments the
underlying set iterator to the end position and then dereferences it: the
recorded dereference list is `[1]`, and position 1 equals the set's length,
i.e. the end position — an invalid read (undefined behaviour in the C++
source), contradicting the claim that the end position is never
dereferenced. -/
theorem iterator_advance_reads_end :
    (((exV.view [0]).baseEntities 0).length = 1)
    ∧ ((exV.view [0]).advance 0 0 = (1, [1])) := by
  constructor
  · decide
  · unfold World.View.advance
    decide

end ClaimC10

section WFPreservation

variable {ι : Type} [DecidableEq ι] {C : ι → Type}

theorem storageWF_empty {γ : Type} : StorageWF (Storage.empty : Storage γ) :=
  ⟨rfl, List.Pairwise.nil⟩

theorem storageWF_insertOrAssign {γ : Type} (s : Storage γ) (e : Nat) (v : γ)
    (h : StorageWF s) : StorageWF (s.insertOrAssign e v) := by
  unfold Storage.insertOrAssign
  refine ⟨?_, ?_⟩
  · dsimp only
    rw [keys_mapInsertOrAssign, h.1]
  · dsimp only
    exact pairwise_setInsert _ _ h.2

theorem storageWF_eraseEntity {γ : Type} (s : Storage γ) (e : Nat)
    (h : StorageWF s) : StorageWF (s.eraseEntity e) := by
  unfold Storage.eraseEntity
  refine ⟨?_, ?_⟩
  · dsimp only
    rw [keys_filter_ne, h.1]
  · dsimp only
    exact h.2.filter _

theorem storageWF_valueUpdate {γ : Type} (s : Storage γ) (e : Nat) (f : γ → γ)
    (h : StorageWF s) :
    StorageWF { s with data := s.data.map fun p => if p.1 = e then (p.1, f p.2) else p } := by
  refine ⟨?_, h.2⟩
  dsimp only
  rw [keys_map_valueUpdate, h.1]

theorem storageWF_withDispatcher {γ : Type} (s : Storage γ) (ph : Phase)
    (d : Dispatcher) (h : StorageWF s) : StorageWF (s.withDispatcher ph d) := by
  cases ph <;> exact h

theorem storageWF_getD (w : World ι C) (i : ι) (hw : WorldWF w) :
    StorageWF (w.getStorageD i) := by
  unfold World.getStorageD
  cases hs : w.storage i with
  | none => exact storageWF_empty
  | some s =>
    have := hw.2 i
    rw [hs] at this
    exact this

theorem worldWF_setStorage (w : World ι C) (i : ι) (s : Storage (C i))
    (hw : WorldWF w) (hs : StorageWF s) : WorldWF (w.setStorage i s) := by
  refine ⟨hw.1, ?_⟩
  intro j
  by_cases hj : i = j
  · subst hj
    rw [storage_setStorage_self]
    exact hs
  · rw [storage_setStorage_ne w i j s hj]
    exact hw.2 j

theorem worldWF_ensure (w : World ι C) (i : ι) (hw : WorldWF w) :
    WorldWF (w.ensureStorage i) := by
  unfold World.ensureStorage
  split
  · exact hw
  · exact worldWF_setStorage w i _ hw storageWF_empty

theorem patch_eq_transform (w : World ι C) (i : ι) (e : Nat) (f : C i → C i) :
    w.patch i e f = w.transform i e f := rfl

theorem transform_some_elim (w : World ι C) (i : ι) (e : Nat) (f : C i → C i)
    (pr : World ι C × List (Event ι C)) (h : w.transform i e f = some pr) :
    pr.1.nextEntityId = w.nextEntityId ∧ pr.1.entities = w.entities
    ∧ ∃ s, w.storage i = some s
        ∧ pr.1 = w.setStorage i
            { s with data := s.data.map fun p => if p.1 = e then (p.1, f p.2) else p } := by
  unfold World.transform at h
  cases hs : w.storage i with
  | none =>
    rw [hs] at h
    cases h
  | some s =>
    rw [hs] at h
    dsimp only at h
    cases hl : mapLookup s.data e with
    | none =>
      rw [hl] at h
      cases h
    | some c =>
      rw [hl] at h
      dsimp only at h
      have h2 := Option.some.inj h
      rw [← h2]
      exact ⟨nextEntityId_setStorage w i _, entities_setStorage w i _, s, rfl, rfl⟩

theorem worldWF_transform_step (w : World ι C) (i : ι) (e : Nat) (f : C i → C i)
    (hw : WorldWF w) : WorldWF (((w.transform i e f).map Prod.fst).getD w) := by
  cases ht : w.transform i e f with
  | none => exact hw
  | some pr =>
    obtain ⟨-, -, s, hs, hpr⟩ := transform_some_elim w i e f pr ht
    show WorldWF pr.1
    rw [hpr]
    have hsWF : StorageWF s := by
      have := hw.2 i
      rw [hs] at this
      exact this
    exact worldWF_setStorage _ i _ hw (storageWF_valueUpdate s e f hsWF)

theorem worldWF_step (w : World ι C) (op : Op ι C) (hw : WorldWF w) :
    WorldWF (stepW w op) := by
  cases op with
  | assign i e v =>
    show WorldWF (w.assign i e v).1
    rw [assign_fst]
    exact worldWF_setStorage _ i _ (worldWF_ensure w i hw)
      (storageWF_insertOrAssign _ e v (storageWF_getD _ i (worldWF_ensure w i hw)))
  | transform i e f => exact worldWF_transform_step w i e f hw
  | patch i e f =>
    show WorldWF (((w.patch i e f).map Prod.fst).getD w)
    rw [patch_eq_transform]
    exact worldWF_transform_step w i e f hw
  | remove i e =>
    show WorldWF (w.remove i e).1
    rw [remove_fst]
    exact worldWF_setStorage _ i _ (worldWF_ensure w i hw)
      (storageWF_eraseEntity _ e (storageWF_getD _ i (worldWF_ensure w i hw)))
  | create =>
    show WorldWF w.createEntity.1
    exact ⟨pairwise_setInsert w.entities w.nextEntityId hw.1, hw.2⟩
  | destroy e =>
    show WorldWF (w.destroyEntity e).1
    refine ⟨hw.1.filter _, ?_⟩
    intro j
    show OptWF ((w.storage j).map fun s => s.eraseEntity e)
    cases hs : w.storage j with
    | none => exact trivial
    | some s =>
      have hsWF : StorageWF s := by
        have := hw.2 j
        rw [hs] at this
        exact this
      exact storageWF_eraseEntity s e hsWF
  | view req => exact hw
  | connect i ph =>
    show WorldWF (w.onConnect i ph).1
    unfold World.onConnect
    dsimp only
    exact worldWF_setStorage _ i _ (worldWF_ensure w i hw)
      (storageWF_withDispatcher _ ph _ (storageWF_getD _ i (worldWF_ensure w i hw)))
  | disconnect i ph cb =>
    show WorldWF (w.onDisconnect i ph cb)
    unfold World.onDisconnect
    dsimp only
    exact worldWF_setStorage _ i _ (worldWF_ensure w i hw)
      (storageWF_withDispatcher _ ph _ (storageWF_getD _ i (worldWF_ensure w i hw)))

theorem worldWF_init : WorldWF (World.init ι C) :=
  ⟨List.Pairwise.nil, fun _ => trivial⟩

theorem worldWF_applyTrace (tr : List (Op ι C)) (w : World ι C) (hw : WorldWF w) :
    WorldWF (applyTrace tr w) := by
  induction tr generalizing w with
  | nil => exact hw
  | cons op tr ih => exact ih (stepW w op) (worldWF_step w op hw)

end WFPreservation

section ClaimC7

variable {ι : Type} [DecidableEq ι] {C : ι → Type}

/-- Claim C7: after every sequence of World operations (assign, transform,
patch, remove, destroyEntity, createEntity, view, event
subscription/unsubscription) starting from a default-constructed world, the
key set of every existing storage's Entity-to-component mapping and that
storage's membership set of entities are identical. -/
theorem storage_map_set_in_sync (tr : List (Op ι C)) (i : ι) :
    SyncedOpt ((applyTrace tr (World.init ι C)).storage i) := by
  have hw := worldWF_applyTrace tr (World.init ι C) worldWF_init
  have h2 := hw.2 i
  cases hs : (applyTrace tr (World.init ι C)).storage i with
  | none => exact trivial
  | some s =>
    rw [hs] at h2
    exact h2.1

end ClaimC7

section ClaimC8

variable {ι : Type} [DecidableEq ι] {C : ι → Type}

theorem createEntity_snd (w : World ι C) : w.createEntity.2 = w.nextEntityId := rfl

theorem nextEntityId_assign (w : World ι C) (i : ι) (e : Nat) (v : C i) :
    (w.assign i e v).1.nextEntityId = w.nextEntityId := by
  rw [assign_fst, nextEntityId_setStorage, nextEntityId_ensure]

theorem entities_assign (w : World ι C) (i : ι) (e : Nat) (v : C i) :
    (w.assign i e v).1.entities = w.entities := by
  rw [assign_fst, entities_setStorage, entities_ensure]

theorem nextEntityId_remove (w : World ι C) (i : ι) (e : Nat) :
    (w.remove i e).1.nextEntityId = w.nextEntityId := by
  rw [remove_fst, nextEntityId_setStorage, nextEntityId_ensure]

theorem entities_remove (w : World ι C) (i : ι) (e : Nat) :
    (w.remove i e).1.entities = w.entities := by
  rw [remove_fst, entities_setStorage, entities_ensure]

theorem nextEntityId_transform_step (w : World ι C) (i : ι) (e : Nat) (f : C i → C i) :
    (((w.transform i e f).map Prod.fst).getD w).nextEntityId = w.nextEntityId := by
  cases ht : w.transform i e f with
  | none => rfl
  | some pr =>
    show pr.1.nextEntityId = w.nextEntityId
    exact (transform_some_elim w i e f pr ht).1

theorem entities_transform_step (w : World ι C) (i : ι) (e : Nat) (f : C i → C i) :
    (((w.transform i e f).map Prod.fst).getD w).entities = w.entities := by
  cases ht : w.transform i e f with
  | none => rfl
  | some pr =>
    show pr.1.entities = w.entities
    exact (transform_some_elim w i e f pr ht).2.1

theorem nextEntityId_onConnect (w : World ι C) (i : ι) (ph : Phase) :
    (w.onConnect i ph).1.nextEntityId = w.nextEntityId := by
  unfold World.onConnect
  dsimp only
  rw [nextEntityId_setStorage, nextEntityId_ensure]

theorem entities_onConnect (w : World ι C) (i : ι) (ph : Phase) :
    (w.onConnect i ph).1.entities = w.entities := by
  unfold World.onConnect
  dsimp only
  rw [entities_setStorage, entities_ensure]

theorem nextEntityId_onDisconnect (w : World ι C) (i : ι) (ph : Phase) (cb : Nat) :
    (w.onDisconnect i ph cb).nextEntityId = w.nextEntityId := by
  unfold World.onDisconnect
  dsimp only
  rw [nextEntityId_setStorage, nextEntityId_ensure]

theorem entities_onDisconnect (w : World ι C) (i : ι) (ph : Phase) (cb : Nat) :
    (w.onDisconnect i ph cb).entities = w.entities := by
  unfold World.onDisconnect
  dsimp only
  rw [entities_setStorage, entities_ensure]

/-- Every operation other than `createEntity` leaves the id counter alone
and introduces no new live entity. -/
theorem stepW_preserves_ids (w : World ι C) (op : Op ι C)
    (hop : match op with
           | Op.create => False
           | _ => True) :
    (stepW w op).nextEntityId = w.nextEntityId
    ∧ ∀ x ∈ (stepW w op).entities, x ∈ w.entities := by
  cases op with
  | create => exact hop.elim
  | assign i e v =>
    refine ⟨nextEntityId_assign w i e v, ?_⟩
    rw [show (stepW w (Op.assign i e v)).entities = (w.assign i e v).1.entities from rfl,
        entities_assign]
    exact fun x h => h
  | transform i e f =>
    refine ⟨nextEntityId_transform_step w i e f, ?_⟩
    rw [show (stepW w (Op.transform i e f)).entities
          = (((w.transform i e f).map Prod.fst).getD w).entities from rfl,
        entities_transform_step]
    exact fun x h => h
  | patch i e f =>
    refine ⟨?_, ?_⟩
    · show (((w.patch i e f).map Prod.fst).getD w).nextEntityId = w.nextEntityId
      rw [patch_eq_transform]
      exact nextEntityId_transform_step w i e f
    · show ∀ x ∈ (((w.patch i e f).map Prod.fst).getD w).entities, x ∈ w.entities
      rw [patch_eq_transform, entities_transform_step]
      exact fun x h => h
  | remove i e =>
    refine ⟨nextEntityId_remove w i e, ?_⟩
    rw [show (stepW w (Op.remove i e)).entities = (w.remove i e).1.entities from rfl,
        entities_remove]
    exact fun x h => h
  | destroy e =>
    exact ⟨rfl, fun x hx => List.mem_of_mem_filter hx⟩
  | view req => exact ⟨rfl, fun x h => h⟩
  | connect i ph =>
    refine ⟨nextEntityId_onConnect w i ph, ?_⟩
    rw [show (stepW w (Op.connect i ph)).entities = (w.onConnect i ph).1.entities from rfl,
        entities_onConnect]
    exact fun x h => h
  | disconnect i ph cb =>
    refine ⟨nextEntityId_onDisconnect w i ph cb, ?_⟩
    rw [show (stepW w (Op.disconnect i ph cb)).entities
          = (w.onDisconnect i ph cb).entities from rfl,
        entities_onDisconnect]
    exact fun x h => h

/-- Along any operation sequence whose `createEntity` count keeps the
(32-bit) id counter from wrapping, the counter equals the number of
creations so far, all live entities are below it, and the returned ids are
exactly the consecutive integers from the starting counter value. -/
theorem trace_create_invariant (tr : List (Op ι C)) :
    ∀ (w : World ι C) (n : Nat), w.nextEntityId = n → (∀ x ∈ w.entities, x < n) →
    n + countCreates tr < uintMod →
    (applyTrace tr w).nextEntityId = n + countCreates tr
    ∧ (∀ x ∈ (applyTrace tr w).entities, x < n + countCreates tr)
    ∧ createdIds tr w = List.range' n (countCreates tr) := by
  induction tr with
  | nil =>
    intro w n hn hb _
    exact ⟨by simpa using hn, by simpa using hb, rfl⟩
  | cons op tr ih =>
    intro w n hn hb hlt
    have happ : applyTrace (op :: tr) w = applyTrace tr (stepW w op) := rfl
    cases op with
    | create =>
      have hc : countCreates (Op.create :: tr) = 1 + countCreates tr := by
        simp [countCreates]
      rw [hc] at hlt ⊢
      have hM : n + 1 < uintMod := by omega
      have hn2 : (stepW w Op.create).nextEntityId = n + 1 := by
        show (w.nextEntityId + 1) % uintMod = n + 1
        rw [hn]
        exact Nat.mod_eq_of_lt hM
      have hb2 : ∀ x ∈ (stepW w Op.create).entities, x < n + 1 := by
        intro x hx
        rcases (mem_setInsert _ _ x).mp hx with h | h
        · rw [h, hn]
          omega
        · exact Nat.lt_succ_of_lt (hb x h)
      obtain ⟨ih1, ih2, ih3⟩ :=
        ih (stepW w Op.create) (n + 1) hn2 hb2 (by omega)
      refine ⟨?_, ?_, ?_⟩
      · rw [happ, ih1]
        omega
      · intro x hx
        rw [happ] at hx
        have := ih2 x hx
        omega
      · have hco : createdIds (Op.create :: tr) w
            = w.nextEntityId :: createdIds tr (stepW w Op.create) := rfl
        rw [hco, hn, ih3, Nat.add_comm 1 (countCreates tr), List.range'_succ]
    | assign i e v =>
      obtain ⟨hn2, hsub⟩ := stepW_preserves_ids w (Op.assign i e v) trivial
      have hc : countCreates (Op.assign i e v :: tr) = countCreates tr := by
        simp [countCreates]
      rw [hc] at hlt ⊢
      obtain ⟨ih1, ih2, ih3⟩ :=
        ih (stepW w (Op.assign i e v)) n (hn2.trans hn)
          (fun x hx => hb x (hsub x hx)) hlt
      exact ⟨happ ▸ ih1, happ ▸ ih2, by
        have : createdIds (Op.assign i e v :: tr) w
            = createdIds tr (stepW w (Op.assign i e v)) := by
          simp [createdIds]
        rw [this, ih3]⟩
    | transform i e f =>
      obtain ⟨hn2, hsub⟩ := stepW_preserves_ids w (Op.transform i e f) trivial
      have hc : countCreates (Op.transform i e f :: tr) = countCreates tr := by
        simp [countCreates]
      rw [hc] at hlt ⊢
      obtain ⟨ih1, ih2, ih3⟩ :=
        ih (stepW w (Op.transform i e f)) n (hn2.trans hn)
          (fun x hx => hb x (hsub x hx)) hlt
      exact ⟨happ ▸ ih1, happ ▸ ih2, by
        have : createdIds (Op.transform i e f :: tr) w
            = createdIds tr (stepW w (Op.transform i e f)) := by
          simp [createdIds]
        rw [this, ih3]⟩
    | patch i e f =>
      obtain ⟨hn2, hsub⟩ := stepW_preserves_ids w (Op.patch i e f) trivial
      have hc : countCreates (Op.patch i e f :: tr) = countCreates tr := by
        simp [countCreates]
      rw [hc] at hlt ⊢
      obtain ⟨ih1, ih2, ih3⟩ :=
        ih (stepW w (Op.patch i e f)) n (hn2.trans hn)
          (fun x hx => hb x (hsub x hx)) hlt
      exact ⟨happ ▸ ih1, happ ▸ ih2, by
        have : createdIds (Op.patch i e f :: tr) w
            = createdIds tr (stepW w (Op.patch i e f)) := by
          simp [createdIds]
        rw [this, ih3]⟩
    | remove i e =>
      obtain ⟨hn2, hsub⟩ := stepW_preserves_ids w (Op.remove i e) trivial
      have hc : countCreates (Op.remove i e :: tr) = countCreates tr := by
        simp [countCreates]
      rw [hc] at hlt ⊢
      obtain ⟨ih1, ih2, ih3⟩ :=
        ih (stepW w (Op.remove i e)) n (hn2.trans hn)
          (fun x hx => hb x (hsub x hx)) hlt
      exact ⟨happ ▸ ih1, happ ▸ ih2, by
        have : createdIds (Op.remove i e :: tr) w
            = createdIds tr (stepW w (Op.remove i e)) := by
          simp [createdIds]
        rw [this, ih3]⟩
    | destroy e =>
      obtain ⟨hn2, hsub⟩ := stepW_preserves_ids w (Op.destroy e) trivial
      have hc : countCreates (Op.destroy e :: tr) = countCreates tr := by
        simp [countCreates]
      rw [hc] at hlt ⊢
      obtain ⟨ih1, ih2, ih3⟩ :=
        ih (stepW w (Op.destroy e)) n (hn2.trans hn)
          (fun x hx => hb x (hsub x hx)) hlt
      exact ⟨happ ▸ ih1, happ ▸ ih2, by
        have : createdIds (Op.destroy e :: tr) w
            = createdIds tr (stepW w (Op.destroy e)) := by
          simp [createdIds]
        rw [this, ih3]⟩
    | view req =>
      obtain ⟨hn2, hsub⟩ := stepW_preserves_ids w (Op.view req) trivial
      have hc : countCreates (Op.view req :: tr) = countCreates tr := by
        simp [countCreates]
      rw [hc] at hlt ⊢
      obtain ⟨ih1, ih2, ih3⟩ :=
        ih (stepW w (Op.view req)) n (hn2.trans hn)
          (fun x hx => hb x (hsub x hx)) hlt
      exact ⟨happ ▸ ih1, happ ▸ ih2, by
        have : createdIds (Op.view req :: tr) w
            = createdIds tr (stepW w (Op.view req)) := by
          simp [createdIds]
        rw [this, ih3]⟩
    | connect i ph =>
      obtain ⟨hn2, hsub⟩ := stepW_preserves_ids w (Op.connect i ph) trivial
      have hc : countCreates (Op.connect i ph :: tr) = countCreates tr := by
        simp [countCreates]
      rw [hc] at hlt ⊢
      obtain ⟨ih1, ih2, ih3⟩ :=
        ih (stepW w (Op.connect i ph)) n (hn2.trans hn)
          (fun x hx => hb x (hsub x hx)) hlt
      exact ⟨happ ▸ ih1, happ ▸ ih2, by
        have : createdIds (Op.connect i ph :: tr) w
            = createdIds tr (stepW w (Op.connect i ph)) := by
          simp [createdIds]
        rw [this, ih3]⟩
    | disconnect i ph cb =>
      obtain ⟨hn2, hsub⟩ := stepW_preserves_ids w (Op.disconnect i ph cb) trivial
      have hc : countCreates (Op.disconnect i ph cb :: tr) = countCreates tr := by
        simp [countCreates]
      rw [hc] at hlt ⊢
      obtain ⟨ih1, ih2, ih3⟩ :=
        ih (stepW w (Op.disconnect i ph cb)) n (hn2.trans hn)
          (fun x hx => hb x (hsub x hx)) hlt
      exact ⟨happ ▸ ih1, happ ▸ ih2, by
        have : createdIds (Op.disconnect i ph cb :: tr) w
            = createdIds tr (stepW w (Op.disconnect i ph cb)) := by
          simp [createdIds]
        rw [this, ih3]⟩

/-- Claim C8 (amended): `createEntity` always succeeds and, as long as fewer
than `2 ^ 32` `createEntity` calls have been made on the World (the id
counter is a 32-bit `unsigned` and wraps after that), it increases `size`
by exactly 1 and returns an identifier distinct from every identifier any
previous `createEntity` call returned — even when previously created
entities have since been destroyed; the counter only increases within that
range and ids are never recycled. -/
theorem createEntity_fresh_under_limit (tr : List (Op ι C))
    (hlt : countCreates tr < uintMod) :
    ((applyTrace tr (World.init ι C)).createEntity.2
        ∉ createdIds tr (World.init ι C))
    ∧ ((applyTrace tr (World.init ι C)).createEntity.1.size
        = (applyTrace tr (World.init ι C)).size + 1) := by
  obtain ⟨h1, h2, h3⟩ :=
    trace_create_invariant tr (World.init ι C) 0 rfl (by intro x hx; cases hx)
      (by simpa using hlt)
  have hid : (applyTrace tr (World.init ι C)).createEntity.2
      = countCreates tr := by
    show (applyTrace tr (World.init ι C)).nextEntityId = countCreates tr
    simpa using h1
  constructor
  · rw [hid, h3]
    intro hmem
    have := List.mem_range'_1.mp hmem
    omega
  · have hnotmem : (applyTrace tr (World.init ι C)).nextEntityId
        ∉ (applyTrace tr (World.init ι C)).entities := by
      intro hx
      have := h2 _ hx
      omega
    show (setInsert (applyTrace tr (World.init ι C)).entities
        (applyTrace tr (World.init ι C)).nextEntityId).length
      = (applyTrace tr (World.init ι C)).entities.length + 1
    exact length_setInsert_of_not_mem _ _ hnotmem

/-- Witness for the amended C8 theorem at a concrete trace containing a
creation followed by a destruction. -/
theorem createEntity_fresh_witness :
    ((applyTrace [Op.create, Op.destroy 0] (World.init (Fin 1) Comp1)).createEntity.2
        ∉ createdIds [Op.create, Op.destroy 0] (World.init (Fin 1) Comp1))
    ∧ ((applyTrace [Op.create, Op.destroy 0] (World.init (Fin 1) Comp1)).createEntity.1.size
        = (applyTrace [Op.create, Op.destroy 0] (World.init (Fin 1) Comp1)).size + 1) :=
  createEntity_fresh_under_limit _ (by decide)

theorem nid_replicate_create (k : Nat) :
    (applyTrace (List.replicate k Op.create) (World.init (Fin 1) Comp1)).nextEntityId
      = k % uintMod := by
  induction k with
  | zero => rfl
  | succ m ih =>
    rw [List.replicate_succ']
    show (List.foldl stepW (World.init (Fin 1) Comp1)
        (List.replicate m Op.create ++ [Op.create])).nextEntityId = (m + 1) % uintMod
    rw [List.foldl_append]
    show ((List.foldl stepW (World.init (Fin 1) Comp1)
        (List.replicate m Op.create)).nextEntityId + 1) % uintMod = (m + 1) % uintMod
    rw [show (List.foldl stepW (World.init (Fin 1) Comp1)
        (List.replicate m Op.create)).nextEntityId
          = (applyTrace (List.replicate m Op.create)
              (World.init (Fin 1) Comp1)).nextEntityId from rfl, ih]
    conv_rhs => rw [Nat.add_mod]
    rw [show (1 : Nat) % uintMod = 1 by decide]

theorem zero_mem_createdIds_replicate (k : Nat) (hk : 0 < k) :
    (0 : Nat) ∈ createdIds (List.replicate k Op.create) (World.init (Fin 1) Comp1) := by
  cases k with
  | zero => cases hk
  | succ m =>
    rw [List.replicate_succ]
    show (0 : Nat) ∈ (World.init (Fin 1) Comp1).nextEntityId
        :: createdIds (List.replicate m Op.create)
            (stepW (World.init (Fin 1) Comp1) Op.create)
    exact List.mem_cons_self _ _

/-- Claim C8 counterexample: the claim, as stated, is false.  After
`2 ^ 32` `createEntity` calls on a default-constructed world, the 32-bit
`unsigned` counter has wrapped back to 0, so the next `createEntity` call
returns the identifier 0 — an identifier that a previous `createEntity`
call on that World already returned. -/
theorem createEntity_id_wraps :
    ((0 : Nat) ∈ createdIds (List.replicate uintMod Op.create)
        (World.init (Fin 1) Comp1))
    ∧ ((applyTrace (List.replicate uintMod Op.create)
        (World.init (Fin 1) Comp1)).createEntity.2 = 0) := by
  constructor
  · exact zero_mem_createdIds_replicate uintMod (by norm_num [uintMod])
  · rw [createEntity_snd, nid_replicate_create, Nat.mod_self]

end ClaimC8
